import Mathlib

/-!
Verification of the iss-moex client (src/moex-api.ts) against its
natural-language specification.

The source is a small TypeScript client with three operations:
getSecurities, getMarketData and getTradingSessions.  Each one builds a
URL, performs an HTTP GET, parses the body as JSON, and decodes the
column/row table shape into records by zipping column names against row
values.  The embedding below translates that code into pure Lean
functions: JavaScript runtime values become the inductive type JSValue,
thrown exceptions become the error side of Except, and the HTTP
transport becomes an explicit function from URL strings to responses.
-/

set_option maxRecDepth 8000

namespace MoexIss

/-- A JavaScript runtime value as produced by JSON parsing, plus the
distinguished undefined value (reading a missing property or an
out-of-bounds array index yields undefined, which is not null).
Numbers are modelled as exact rationals; JSON numbers carry no NaN or
infinities, so truthiness of a number is exactly nonzero-ness. -/
inductive JSValue where
  | undef
  | null
  | bool (b : Bool)
  | num (q : Rat)
  | str (s : String)
  | arr (elems : List JSValue)
  | obj (fields : List (String × JSValue))

/-- JavaScript truthiness, as used by the guards at moex-api.ts lines 35,
77 and 116: undefined, null, false, 0 and the empty string are falsy;
every array and every object (empty or not) is truthy. -/
def truthy : JSValue → Bool
  | .undef => false
  | .null => false
  | .bool b => b
  | .num q => decide (q ≠ 0)
  | .str s => decide (s ≠ ("" : String))
  | .arr _ => true
  | .obj _ => true

/-- Reading a named property from a plain object: the first binding of
the key if present, undefined otherwise. -/
def getField (fields : List (String × JSValue)) (k : String) : JSValue :=
  match fields.lookup k with
  | none => .undef
  | some v => v

/-- JavaScript property access v.k as an Except computation: on null and
undefined it throws a TypeError; objects look the key up; arrays and
strings expose length (for strings the model counts code points); any
other access yields undefined.  Prototype properties other than length
are not reached by the source and are not modelled. -/
def getProp : JSValue → String → Except String JSValue
  | .null, _ => .error ("TypeError: Cannot read properties of null")
  | .undef, _ => .error ("TypeError: Cannot read properties of undefined")
  | .obj fields, k => .ok (getField fields k)
  | .bool _, _ => .ok .undef
  | .num _, _ => .ok .undef
  | .arr xs, k => .ok (if k = ("length" : String) then .num (xs.length : Rat) else .undef)
  | .str s, k => .ok (if k = ("length" : String) then .num (s.length : Rat) else .undef)

/-- JavaScript numeric indexing v[i]: arrays yield the element or
undefined when out of bounds; strings yield a one-character string (the
model indexes code points); objects look up the decimal string of the
index; indexing null or undefined throws. -/
def indexAt : JSValue → Nat → Except String JSValue
  | .null, _ => .error ("TypeError: Cannot read properties of null")
  | .undef, _ => .error ("TypeError: Cannot read properties of undefined")
  | .arr xs, i => .ok (xs.getD i .undef)
  | .obj fields, i => .ok (getField fields (toString i))
  | .bool _, _ => .ok .undef
  | .num _, _ => .ok .undef
  | .str s, i =>
      .ok (match s.data.drop i with
           | [] => .undef
           | ch :: _ => .str (String.mk [ch]))

/-- Conversion of a value used as a property key.  The source only ever
uses the elements of a columns array here, and its TypeScript type
declares them as strings, so the string case is the one that matters and
it is exact.  The remaining cases follow the JavaScript ToString rules
where they are simple (null, undefined, booleans, plain objects) and use
a fixed approximation for numbers (exact on integers) and arrays; no
claim depends on them. -/
def keyString : JSValue → String
  | .str s => s
  | .num q => toString q
  | .bool b => toString b
  | .null => ("null" : String)
  | .undef => ("undefined" : String)
  | .arr _ => ("[array]" : String)
  | .obj _ => ("[object Object]" : String)

/-- JavaScript property assignment on an object literal: if the key is
already bound its slot keeps its position and receives the new value,
otherwise the binding is appended (insertion order). -/
def objAssign (fields : List (String × JSValue)) (k : String) (v : JSValue) :
    List (String × JSValue) :=
  match fields with
  | [] => [(k, v)]
  | (k2, v2) :: rest =>
      if k2 = k then (k2, v) :: rest else (k2, v2) :: objAssign rest k v

/-- Calling an array method (map, forEach) on a non-array throws a
TypeError; on an array it exposes the element list. -/
def asArray : JSValue → Except String (List JSValue)
  | .arr xs => .ok xs
  | _ => .error ("TypeError: not a function")

/-- The loop body shared by all three operations (moex-api.ts lines
44 to 46, 85 to 87 and 125 to 127): columns.forEach assigning
record[column] = row[index] for index 0, 1, ... in order.  The row is
indexed live, so a short row contributes undefined values and a long row
has its extra values never read. -/
def buildRecordGo (row : JSValue) :
    List JSValue → Nat → List (String × JSValue) →
    Except String (List (String × JSValue))
  | [], _, acc => .ok acc
  | c :: cs, i, acc =>
      match indexAt row i with
      | .error e => .error e
      | .ok v => buildRecordGo row cs (i + 1) (objAssign acc (keyString c) v)

/-- Decoding one row against a columns value: mirrors the callback of
rows.map (lines 42 to 48) and the single-row block of getMarketData
(lines 84 to 89).  columns.forEach throws first when columns is not an
array; otherwise the fresh record object is filled in column order. -/
def decodeRow (columns : JSValue) (row : JSValue) : Except String JSValue :=
  match asArray columns with
  | .error e => .error e
  | .ok cols =>
      match buildRecordGo row cols 0 [] with
      | .error e => .error e
      | .ok fields => .ok (.obj fields)

/-- Array.prototype.map with a fallible callback: elements are processed
left to right and the first thrown exception aborts the whole call. -/
def mapDecode (f : JSValue → Except String JSValue) :
    List JSValue → Except String (List JSValue)
  | [] => .ok []
  | x :: xs =>
      match f x with
      | .error e => .error e
      | .ok r =>
          match mapDecode f xs with
          | .error e => .error e
          | .ok rs => .ok (r :: rs)

/-- The many-row decode step of getSecurities (lines 35 to 48) and
getTradingSessions (lines 116 to 129), parameterised by the resource
key: if body.key is falsy, or body.key.data is falsy, return the empty
array; otherwise map every row of data to a record zipped against
columns. -/
def decodeRows (body : JSValue) (key : String) : Except String (List JSValue) :=
  match getProp body key with
  | .error e => .error e
  | .ok res =>
      if truthy res = false then .ok []
      else
        match getProp res ("data" : String) with
        | .error e => .error e
        | .ok rowsv =>
            if truthy rowsv = false then .ok []
            else
              match getProp res ("columns" : String) with
              | .error e => .error e
              | .ok columns =>
                  match asArray rowsv with
                  | .error e => .error e
                  | .ok rowsl => mapDecode (fun row => decodeRow columns row) rowsl

/-- JavaScript strict equality against the number 0, as in the guard
data.length === 0: true only for the number zero (a value of any other
type is never strictly equal to a number). -/
def strictEqZero : JSValue → Bool
  | .num q => decide (q = 0)
  | _ => false

/-- The single-row decode step of getMarketData (lines 75 to 89): if
body.key is falsy, or body.key.data is falsy, or its length is strictly
equal to the number 0, return null; otherwise decode only data[0]
against columns. -/
def decodeOne (body : JSValue) (key : String) : Except String JSValue :=
  match getProp body key with
  | .error e => .error e
  | .ok md =>
      if truthy md = false then .ok .null
      else
        match getProp md ("data" : String) with
        | .error e => .error e
        | .ok d =>
            if truthy d = false then .ok .null
            else
              match getProp d ("length" : String) with
              | .error e => .error e
              | .ok len =>
                  if strictEqZero len then .ok .null
                  else
                    match getProp md ("columns" : String) with
                    | .error e => .error e
                    | .ok columns =>
                        match indexAt d 0 with
                        | .error e => .error e
                        | .ok row0 => decodeRow columns row0

/-- The decode step of getSecurities applied to a parsed body. -/
def decodeSecuritiesBody (body : JSValue) : Except String (List JSValue) :=
  decodeRows body ("securities" : String)

/-- The decode step of getTradingSessions applied to a parsed body. -/
def decodeSessionsBody (body : JSValue) : Except String (List JSValue) :=
  decodeRows body ("sessions" : String)

/-- The decode step of getMarketData applied to a parsed body. -/
def decodeMarketDataBody (body : JSValue) : Except String JSValue :=
  decodeOne body ("marketdata" : String)

/-- The Engine enumeration from types.ts: the trading systems the
client documents.  Each member carries a string value used as a URL
path segment. -/
inductive Engine where
  | STOCK
  | STATE
  | CURRENCY
  | FUTURES
  | COMMODITY
  | INTERVENTIONS

/-- The string value of an Engine member, as declared in types.ts. -/
def Engine.value : Engine → String
  | .STOCK => ("stock" : String)
  | .STATE => ("state" : String)
  | .CURRENCY => ("currency" : String)
  | .FUTURES => ("futures" : String)
  | .COMMODITY => ("commodity" : String)
  | .INTERVENTIONS => ("interventions" : String)

/-- The Market enumeration from types.ts. -/
inductive Market where
  | SHARES
  | BONDS
  | NDM
  | OTC
  | CCP
  | DEPOSIT
  | REPO
  | QNV
  | MAMC
  | FOREIGNEXCHANGE
  | SELT
  | PSDB
  | MIXED

/-- The string value of a Market member, as declared in types.ts. -/
def Market.value : Market → String
  | .SHARES => ("shares" : String)
  | .BONDS => ("bonds" : String)
  | .NDM => ("ndm" : String)
  | .OTC => ("otc" : String)
  | .CCP => ("ccp" : String)
  | .DEPOSIT => ("deposit" : String)
  | .REPO => ("repo" : String)
  | .QNV => ("qnv" : String)
  | .MAMC => ("mamc" : String)
  | .FOREIGNEXCHANGE => ("foreignexchange" : String)
  | .SELT => ("selt" : String)
  | .PSDB => ("psdb" : String)
  | .MIXED => ("mixed" : String)

/-- The fixed base URL of the API (moex-api.ts line 10). -/
def MOEX_API_BASE_URL : String := ("https://iss.moex.com/iss" : String)

/-- The 27 whitelisted column names of the securities listing, in the
order they appear in the query template at moex-api.ts line 25 (the same
order the specification documents in its interface section). -/
def securityColumnsList : List String :=
  [("SECID" : String), ("BOARDID" : String), ("SHORTNAME" : String),
   ("PREVPRICE" : String), ("LOTSIZE" : String), ("FACEVALUE" : String),
   ("STATUS" : String), ("BOARDNAME" : String), ("DECIMALS" : String),
   ("SECNAME" : String), ("REMARKS" : String), ("MARKETCODE" : String),
   ("INSTRID" : String), ("SECTORID" : String), ("MINSTEP" : String),
   ("PREVWAPRICE" : String), ("FACEUNIT" : String), ("PREVDATE" : String),
   ("ISSUESIZE" : String), ("ISIN" : String), ("LATNAME" : String),
   ("REGNUMBER" : String), ("PREVLEGALCLOSEPRICE" : String),
   ("CURRENCYID" : String), ("SECTYPE" : String), ("LISTLEVEL" : String),
   ("SETTLEDATE" : String)]

/-- The URL built by getSecurities (moex-api.ts line 25).  The template
literal is reproduced as a concatenation, split at the interpolation
holes and at a few literal boundaries (pure reassociation of string
append); the column whitelist is the comma join of
securityColumnsList. -/
def getSecuritiesUrl (engine market : String) (limit : Nat) : String :=
  MOEX_API_BASE_URL ++ ("/engines/" : String) ++ engine ++
    ("/markets/" : String) ++ market ++ ("/securities.json" : String) ++
    ("?iss.meta=off&iss.only=securities&securities.columns=" : String) ++
    (String.intercalate ("," : String) securityColumnsList) ++
    ("&" : String) ++ ("start=0" : String) ++ ("&" : String) ++
    ("limit=" : String) ++ toString limit

/-- The URL built by getMarketData (moex-api.ts line 67). -/
def getMarketDataUrl (secid engine market : String) : String :=
  MOEX_API_BASE_URL ++ ("/engines/" : String) ++ engine ++
    ("/markets/" : String) ++ market ++ ("/securities/" : String) ++ secid ++
    (".json?iss.meta=off&iss.only=marketdata" : String)

/-- The URL built by getTradingSessions (moex-api.ts line 106). -/
def getTradingSessionsUrl (engine market : String) : String :=
  MOEX_API_BASE_URL ++ ("/engines/" : String) ++ engine ++
    ("/markets/" : String) ++ market ++ ("/sessions.json?iss.meta=off" : String)

/-- An HTTP response as seen through the fetch interface the client
uses: the ok flag, the numeric status, and the result of parsing the
body as JSON (the error side is a JSON parse failure message). -/
structure HttpResponse where
  ok : Bool
  status : Nat
  body : Except String JSValue

/-- Lines 27 to 33 of every operation: await the transport result (a
transport failure is a thrown error), throw on a non-ok status with the
literal HTTP error message, otherwise parse the body. -/
def fetchStep (resp : Except String HttpResponse) : Except String JSValue :=
  match resp with
  | .error e => .error e
  | .ok r =>
      if r.ok = false then
        .error (("HTTP error! status: " : String) ++ toString r.status)
      else r.body

/-- The body of the try block of getSecurities: fetch the securities URL
and decode the parsed body. -/
def rawSecurities (transport : String → Except String HttpResponse)
    (engine market : String) (limit : Nat) : Except String (List JSValue) :=
  match fetchStep (transport (getSecuritiesUrl engine market limit)) with
  | .error e => .error e
  | .ok b => decodeSecuritiesBody b

/-- getSecurities (moex-api.ts lines 19 to 52): the try block, with any
failure caught and rethrown as a single wrapped error.  Every failure in
the model carries a message, matching the Error instances thrown by the
source.  The source defaults (engine stock, market shares, limit 100)
are argument defaults and do not change the behaviour modelled here. -/
def getSecurities (transport : String → Except String HttpResponse)
    (engine market : String) (limit : Nat) : Except String (List JSValue) :=
  match rawSecurities transport engine market limit with
  | .ok v => .ok v
  | .error e => .error (("Failed to fetch securities: " : String) ++ e)

/-- The body of the try block of getMarketData. -/
def rawMarketData (transport : String → Except String HttpResponse)
    (secid engine market : String) : Except String JSValue :=
  match fetchStep (transport (getMarketDataUrl secid engine market)) with
  | .error e => .error e
  | .ok b => decodeMarketDataBody b

/-- getMarketData (moex-api.ts lines 61 to 93): wraps any failure into a
single error naming the requested secid. -/
def getMarketData (transport : String → Except String HttpResponse)
    (secid engine market : String) : Except String JSValue :=
  match rawMarketData transport secid engine market with
  | .ok v => .ok v
  | .error e =>
      .error (("Failed to fetch market data for " : String) ++ secid ++
        (": " : String) ++ e)

/-- The body of the try block of getTradingSessions. -/
def rawSessions (transport : String → Except String HttpResponse)
    (engine market : String) : Except String (List JSValue) :=
  match fetchStep (transport (getTradingSessionsUrl engine market)) with
  | .error e => .error e
  | .ok b => decodeSessionsBody b

/-- getTradingSessions (moex-api.ts lines 101 to 133). -/
def getTradingSessions (transport : String → Except String HttpResponse)
    (engine market : String) : Except String (List JSValue) :=
  match rawSessions transport engine market with
  | .ok v => .ok v
  | .error e => .error (("Failed to fetch trading sessions: " : String) ++ e)

/-- A response body of the documented wire shape: one resource key bound
to an object with a columns array (of column-name strings) and a data
array of row arrays.  This is the shape the specification fixes for a
Table and the shape the test fixtures of the repository use. -/
def mkTableBody (key : String) (cols : List String) (rows : List (List JSValue)) :
    JSValue :=
  JSValue.obj [(key, JSValue.obj
    [(("columns" : String), JSValue.arr (cols.map JSValue.str)),
     (("data" : String), JSValue.arr (rows.map JSValue.arr))])]

/-- The record field list produced for a row: each column is paired with
the row value at the same index, and a column beyond the end of the row
is paired with undefined (reading past the end of a JavaScript array
yields undefined).  Extra row values beyond the columns are dropped by
the zip. -/
def zipPad (cols : List String) (vals : List JSValue) : List (String × JSValue) :=
  cols.zip (vals ++ List.replicate (cols.length - vals.length) JSValue.undef)

/-- Intermediate form of zipPad for the index-carrying loop: column j of
the remaining columns is paired with the row value at index i + j. -/
def zipPadFrom (cols : List String) (row : List JSValue) (i : Nat) :
    List (String × JSValue) :=
  match cols with
  | [] => []
  | c :: cs => (c, row.getD i JSValue.undef) :: zipPadFrom cs row (i + 1)

/-- The missing-or-empty table situations of the specification, on a
body where property access cannot throw: the resource key reads as
undefined; or the resource is an object whose data field reads as
undefined; or that data field is the empty array. -/
def missingOrEmpty (body : JSValue) (key : String) : Prop :=
  getProp body key = .ok JSValue.undef
  ∨ (∃ sfields, getProp body key = .ok (JSValue.obj sfields) ∧
      getField sfields ("data" : String) = JSValue.undef)
  ∨ (∃ sfields, getProp body key = .ok (JSValue.obj sfields) ∧
      getField sfields ("data" : String) = JSValue.arr [])

/-- A parsed body of the wire shape the specification documents for the
quote resource: an object; if the marketdata key is present its value is
an object; if that object has a data field its value is an array. -/
def wellShapedMd : JSValue → Bool
  | .obj fields =>
      match fields.lookup ("marketdata" : String) with
      | none => true
      | some (.obj mfields) =>
          match mfields.lookup ("data" : String) with
          | none => true
          | some (.arr _) => true
          | some _ => false
      | some _ => false
  | _ => false

/-- The absence condition of the quote claim, on a well-shaped body: the
marketdata key is absent, or its data field is absent, or the data array
is empty. -/
def quoteMissing : JSValue → Bool
  | .obj fields =>
      match fields.lookup ("marketdata" : String) with
      | none => true
      | some (.obj mfields) =>
          match mfields.lookup ("data" : String) with
          | none => true
          | some (.arr rows) => rows.isEmpty
          | some _ => false
      | some _ => false
  | _ => false

/-- The falsy-presence situations of the implicit claim: the resource
key is present but bound to a falsy value, or the resource is present as
an object whose data field is present but bound to a falsy value. -/
def falsyPresent (fields : List (String × JSValue)) (key : String) : Prop :=
  (∃ v, fields.lookup key = some v ∧ truthy v = false)
  ∨ (∃ sfields dv, fields.lookup key = some (JSValue.obj sfields) ∧
      sfields.lookup ("data" : String) = some dv ∧ truthy dv = false)

/-- Substring containment, used to state URL and error-message shape
properties. -/
def containsStr (s pat : String) : Prop :=
  ∃ a b : String, s = a ++ pat ++ b

/-! ### An explicit-heap rendering of the decode loop, for the frame
property.  JavaScript arrays and objects are mutable cells; the value
model above cannot even express mutation, so the no-mutation claim is
settled on a heap-passing version of the same loop: cells live in an
address-indexed heap, the loop allocates one fresh record object per row
and writes only to it. -/

/-- A primitive (non-reference) JavaScript value. -/
inductive HPrim where
  | pundef
  | pnull
  | pbool (b : Bool)
  | pnum (q : Rat)
  | pstr (s : String)

/-- A heap value: a primitive or a reference to a heap cell. -/
inductive HVal where
  | prim (p : HPrim)
  | ref (a : Nat)

/-- A heap cell: an array of values or an object of named fields. -/
inductive HCell where
  | harr (elems : List HVal)
  | hobj (fields : List (String × HVal))

/-- The heap: an association of addresses to cells (first binding
wins). -/
abbrev JSHeap := List (Nat × HCell)

/-- Reading the cell at an address. -/
def heapGet (h : JSHeap) (a : Nat) : Option HCell :=
  List.lookup a h

/-- Overwriting the cell at an address (every binding of that address is
replaced; lookups at other addresses are untouched). -/
def heapSet (h : JSHeap) (a : Nat) (c : HCell) : JSHeap :=
  h.map (fun p => if p.1 = a then (a, c) else p)

/-- Allocating a cell at an address (prepended, so it shadows). -/
def heapAlloc (h : JSHeap) (a : Nat) (c : HCell) : JSHeap :=
  (a, c) :: h

/-- An address strictly larger than every address bound in the heap,
hence unbound: the model of allocating a fresh object. -/
def freshAddr (h : JSHeap) : Nat :=
  h.foldr (fun p m => Nat.max (p.1 + 1) m) 0

/-- Property-key conversion for heap values, mirroring keyString. -/
def keyStringH : HVal → String
  | .prim (.pstr s) => s
  | .prim (.pnum q) => toString q
  | .prim (.pbool b) => toString b
  | .prim .pnull => ("null" : String)
  | .prim .pundef => ("undefined" : String)
  | .ref _ => ("[object]" : String)

/-- Reading a named field from heap object fields. -/
def getFieldH (fields : List (String × HVal)) (k : String) : HVal :=
  match fields.lookup k with
  | none => .prim .pundef
  | some v => v

/-- Indexing row[i] on the heap: a reference is dereferenced and read
(the read never writes); indexing null or undefined throws. -/
def rowIndexH (h : JSHeap) (row : HVal) (i : Nat) : Except String HVal :=
  match row with
  | .prim .pnull => .error ("TypeError: Cannot read properties of null")
  | .prim .pundef => .error ("TypeError: Cannot read properties of undefined")
  | .prim (.pstr s) =>
      .ok (match s.data.drop i with
           | [] => .prim .pundef
           | ch :: _ => .prim (.pstr (String.mk [ch])))
  | .prim _ => .ok (.prim .pundef)
  | .ref a =>
      match heapGet h a with
      | some (.harr xs) => .ok (xs.getD i (.prim .pundef))
      | some (.hobj fields) => .ok (getFieldH fields (toString i))
      | none => .error ("dangling reference")

/-- Property assignment on heap object fields, same policy as
objAssign. -/
def objAssignH (fields : List (String × HVal)) (k : String) (v : HVal) :
    List (String × HVal) :=
  match fields with
  | [] => [(k, v)]
  | (k2, v2) :: rest =>
      if k2 = k then (k2, v) :: rest else (k2, v2) :: objAssignH rest k v

/-- The forEach body on the heap: for each column in order, read
row[index] and write the value into the record object at address a.
Only address a is ever written. -/
def buildRowH (a : Nat) (row : HVal) :
    JSHeap → List HVal → Nat → Except String JSHeap
  | h, [], _ => .ok h
  | h, c :: cs, i =>
      match rowIndexH h row i with
      | .error e => .error e
      | .ok v =>
          match heapGet h a with
          | some (.hobj fields) =>
              buildRowH a row (heapSet h a (.hobj (objAssignH fields (keyStringH c) v)))
                cs (i + 1)
          | _ => .error ("TypeError: not an object")

/-- rows.map on the heap: per row, allocate a fresh empty record object,
fill it by the forEach loop, and return its address; rows are processed
in order and the first exception aborts. -/
def decodeRowsH (cols : List HVal) :
    JSHeap → List HVal → Except String (JSHeap × List Nat)
  | h, [] => .ok (h, [])
  | h, row :: rest =>
      let a := freshAddr h
      match buildRowH a row (heapAlloc h a (.hobj [])) cols 0 with
      | .error e => .error e
      | .ok h2 =>
          match decodeRowsH cols h2 rest with
          | .error e => .error e
          | .ok (h3, recs) => .ok (h3, a :: recs)

/-- The decode step on the heap, entered from the addresses of the
columns array and the data array (moex-api.ts lines 39 to 48): both are
read once, then the rows are mapped. -/
def decodeStepH (h : JSHeap) (colsA rowsA : Nat) :
    Except String (JSHeap × List Nat) :=
  match heapGet h colsA, heapGet h rowsA with
  | some (.harr cols), some (.harr rows) => decodeRowsH cols h rows
  | _, _ => .error ("TypeError: not a function")

/-- Example heap for the frame witness: address 0 holds the columns
array, address 1 the data array with one row, address 2 that row. -/
def frameHeap0 : JSHeap :=
  [(0, HCell.harr [HVal.prim (HPrim.pstr ("SECID" : String))]),
   (1, HCell.harr [HVal.ref 2]),
   (2, HCell.harr [HVal.prim (HPrim.pstr ("SBER" : String))])]

/-- The heap after decoding frameHeap0: one record allocated at the
fresh address 3; addresses 0, 1 and 2 are untouched. -/
def frameHeap1 : JSHeap :=
  (3, HCell.hobj [(("SECID" : String), HVal.prim (HPrim.pstr ("SBER" : String)))]) ::
    frameHeap0

/-- Example column list for concrete instantiations. -/
def exCols : List String := [("SECID" : String), ("BOARDID" : String)]

/-- Example row matching exCols in length. -/
def exRow : List JSValue := [JSValue.str ("SBER" : String), JSValue.num 250]

/-- Example well-shaped quote body with one data row. -/
def exQuoteBody : JSValue :=
  mkTableBody ("marketdata" : String) [("SECID" : String)] [[JSValue.str ("SBER" : String)]]

/-- Example two-column list for the length-mismatch instantiation. -/
def exColsAB : List String := [("A" : String), ("B" : String)]

/-- Example row shorter than exColsAB. -/
def exShortRow : List JSValue := [JSValue.num 1]

/-- Example one-column list. -/
def exCols1 : List String := [("SECID" : String)]

/-- Example two-row data set. -/
def exRows2 : List (List JSValue) :=
  [[JSValue.str ("SBER" : String)], [JSValue.str ("GAZP" : String)]]

/-- Example non-ok HTTP response. -/
def exBadResponse : HttpResponse := ⟨false, 404, .ok JSValue.null⟩

/-- Example body binding all three resource keys to null. -/
def exFalsyFields : List (String × JSValue) :=
  [(("securities" : String), JSValue.null), (("sessions" : String), JSValue.null),
   (("marketdata" : String), JSValue.null)]

/-! ### Supporting lemmas -/

/-- Truthiness of an object value. -/
theorem truthy_obj (fs : List (String × JSValue)) : truthy (JSValue.obj fs) = true := rfl

/-- Truthiness of an array value, empty or not. -/
theorem truthy_arr (xs : List JSValue) : truthy (JSValue.arr xs) = true := rfl

/-- Assigning a key that is not yet bound appends the binding. -/
theorem objAssign_append (acc : List (String × JSValue)) (k : String) (v : JSValue)
    (h : acc.lookup k = none) : objAssign acc k v = acc ++ [(k, v)] := by
  induction acc with
  | nil => rfl
  | cons p rest ih =>
      obtain ⟨k2, v2⟩ := p
      rw [List.lookup] at h
      by_cases hk : k == k2
      · simp [hk] at h
      · have hne : ¬ k2 = k := by
          intro he
          exact hk (by simp [he])
        simp only [hk] at h
        simp only [objAssign, if_neg hne, List.cons_append]
        rw [ih h]

/-- A key distinct from the appended one stays unbound. -/
theorem lookup_append_none {β : Type} (acc : List (String × β)) (k : String) (v : β)
    (c : String) (hne : ¬ c = k) (h : acc.lookup c = none) :
    (acc ++ [(k, v)]).lookup c = none := by
  induction acc with
  | nil =>
      have hb : (c == k) = false := by
        simp [hne]
      simp [List.lookup, hb]
  | cons p rest ih =>
      obtain ⟨k2, v2⟩ := p
      rw [List.lookup] at h
      by_cases hk : c == k2
      · simp [hk] at h
      · simp only [hk] at h
        simp only [List.cons_append, List.lookup, hk]
        exact ih h

/-- Unfolding zipPad on a column against a nonempty row. -/
theorem zipPad_cons_cons (c : String) (cs : List String) (x : JSValue) (xs : List JSValue) :
    zipPad (c :: cs) (x :: xs) = (c, x) :: zipPad cs xs := by
  simp [zipPad, Nat.succ_sub_succ]

/-- Unfolding zipPad on a column against an exhausted row. -/
theorem zipPad_cons_nil (c : String) (cs : List String) :
    zipPad (c :: cs) [] = (c, JSValue.undef) :: zipPad cs [] := by
  simp [zipPad, List.replicate_succ]

/-- The index-carrying zip starting at index i sees the dropped row. -/
theorem zipPadFrom_eq_zipPad (row : List JSValue) :
    ∀ (cols : List String) (i : Nat), zipPadFrom cols row i = zipPad cols (row.drop i) := by
  intro cols
  induction cols with
  | nil => intro i; rfl
  | cons c cs ih =>
      intro i
      rw [zipPadFrom, ih (i + 1)]
      cases hd : row.drop i with
      | nil =>
          have hle : row.length ≤ i := by
            rw [← List.drop_eq_nil_iff]
            exact hd
          have h1 : row.getD i JSValue.undef = JSValue.undef :=
            List.getD_eq_default _ _ hle
          have h2 : row.drop (i + 1) = [] := by
            rw [List.drop_eq_nil_iff]
            omega
          rw [h1, h2, zipPad_cons_nil]
      | cons x xs =>
          have hx : row[i]? = some x := by
            have h0 := List.getElem?_drop row i 0
            rw [Nat.add_zero] at h0
            rw [← h0, hd]
            simp
          have h1 : row.getD i JSValue.undef = x := by
            simp [List.getD, hx]
          have h2 : row.drop (i + 1) = xs := by
            have h3 : row.drop (i + 1) = (row.drop i).drop 1 := by
              rw [List.drop_drop, Nat.add_comm]
            rw [h3, hd]
            rfl
          rw [h1, h2, zipPad_cons_cons]

/-- The forEach loop over distinct column names, started at index i with
an accumulator none of those names touch, appends exactly the pairing of
each remaining column with the live row value at its index. -/
theorem buildRecordGo_eq (row : List JSValue) :
    ∀ (cols : List String) (i : Nat) (acc : List (String × JSValue)),
    cols.Nodup → (∀ c ∈ cols, acc.lookup c = none) →
    buildRecordGo (JSValue.arr row) (cols.map JSValue.str) i acc =
      .ok (acc ++ zipPadFrom cols row i) := by
  intro cols
  induction cols with
  | nil =>
      intro i acc _ _
      simp [buildRecordGo, zipPadFrom]
  | cons c cs ih =>
      intro i acc hnd hdisj
      simp only [List.map_cons, buildRecordGo, indexAt]
      have hcacc : acc.lookup c = none := hdisj c (by simp)
      have hassign : objAssign acc (keyString (JSValue.str c)) (row.getD i JSValue.undef) =
          acc ++ [(c, row.getD i JSValue.undef)] := by
        rw [keyString]
        exact objAssign_append acc c _ hcacc
      rw [hassign]
      have hnd2 : cs.Nodup := (List.nodup_cons.mp hnd).2
      have hnotin : c ∉ cs := (List.nodup_cons.mp hnd).1
      have hdisj2 : ∀ c2 ∈ cs, (acc ++ [(c, row.getD i JSValue.undef)]).lookup c2 = none := by
        intro c2 hc2
        have hne : ¬ c2 = c := by
          intro he
          exact hnotin (he ▸ hc2)
        exact lookup_append_none acc c _ c2 hne (hdisj c2 (List.mem_cons_of_mem c hc2))
      rw [ih (i + 1) (acc ++ [(c, row.getD i JSValue.undef)]) hnd2 hdisj2]
      rw [zipPadFrom]
      simp

/-- Decoding one array row against an array of distinct column names
produces exactly the padded column-value pairing. -/
theorem decodeRow_zipPad (cols : List String) (row : List JSValue) (hnd : cols.Nodup) :
    decodeRow (JSValue.arr (cols.map JSValue.str)) (JSValue.arr row) =
      .ok (JSValue.obj (zipPad cols row)) := by
  simp only [decodeRow, asArray]
  rw [buildRecordGo_eq row cols 0 [] hnd (by intro c _; rfl)]
  rw [zipPadFrom_eq_zipPad, List.drop_zero]
  simp

/-- A successful row decode always yields an object, never the null
value. -/
theorem decodeRow_ne_null (columns row : JSValue) :
    decodeRow columns row ≠ .ok JSValue.null := by
  rw [decodeRow]
  cases h1 : asArray columns with
  | error e => simp
  | ok cols =>
      cases h2 : buildRecordGo row cols 0 [] with
      | error e => simp [h2]
      | ok fields => simp [h2]

/-- Looking a column name up in the zip of distinct columns with a row
finds the value at the same index. -/
theorem lookup_zip_get (cols : List String) (row : List JSValue) (hnd : cols.Nodup) :
    ∀ (i : Nat) (hi : i < cols.length) (hi2 : i < row.length),
      (cols.zip row).lookup (cols.get ⟨i, hi⟩) = some (row.get ⟨i, hi2⟩) := by
  induction cols generalizing row with
  | nil => intro i hi _; exact absurd hi (by simp)
  | cons c cs ih =>
      intro i hi hi2
      cases row with
      | nil => exact absurd hi2 (by simp)
      | cons x xs =>
          cases i with
          | zero =>
              simp [List.zip, List.lookup]
          | succ j =>
              have hnotin : c ∉ cs := (List.nodup_cons.mp hnd).1
              have hj : j < cs.length := by simpa using hi
              have hj2 : j < xs.length := by simpa using hi2
              simp only [List.get_eq_getElem, List.getElem_cons_succ]
              have hmem : cs[j] ∈ cs := List.getElem_mem hj
              have hne : (cs[j] == c) = false := by
                have hcc : ¬ cs[j] = c := by
                  intro he
                  exact hnotin (he ▸ hmem)
                simp [hcc]
              simp only [List.zip_cons_cons, List.lookup, hne]
              have hih := ih xs ((List.nodup_cons.mp hnd).2) j hj hj2
              simp only [List.get_eq_getElem] at hih
              exact hih

/-- Mapping the fallible row decode over array rows succeeds row by row. -/
theorem mapDecode_map_arr (cols : List String) (hnd : cols.Nodup) (rows : List (List JSValue)) :
    mapDecode (fun row => decodeRow (JSValue.arr (cols.map JSValue.str)) row) (rows.map JSValue.arr) =
      .ok (rows.map (fun r => JSValue.obj (zipPad cols r))) := by
  induction rows with
  | nil => rfl
  | cons r rs ih =>
      simp only [List.map_cons, mapDecode, decodeRow_zipPad cols r hnd, ih]

/-- The many-row decode of a well-shaped table body produces one padded
record per row, in row order. -/
theorem decodeRows_table (key : String) (cols : List String) (rows : List (List JSValue))
    (hnd : cols.Nodup) :
    decodeRows (mkTableBody key cols rows) key =
      .ok (rows.map (fun r => JSValue.obj (zipPad cols r))) := by
  have hb1 : (("data" : String) == ("columns" : String)) = false := by decide
  have hb2 : (("columns" : String) == ("columns" : String)) = true := by decide
  have hb3 : (("data" : String) == ("data" : String)) = true := by decide
  rw [decodeRows, mkTableBody]
  simp only [getProp, getField, List.lookup, beq_self_eq_true, truthy, hb1, hb2, hb3,
    Bool.true_eq_false, if_false, asArray]
  exact mapDecode_map_arr cols hnd rows

/-- When the data field holds a nonempty array, the single-row decode
reads only the head row and zips it against the columns field. -/
theorem decodeOne_nonempty (fields mfields : List (String × JSValue)) (key : String)
    (r0 : JSValue) (rest : List JSValue)
    (h1 : fields.lookup key = some (JSValue.obj mfields))
    (h2 : mfields.lookup ("data" : String) = some (JSValue.arr (r0 :: rest))) :
    decodeOne (JSValue.obj fields) key = decodeRow (getField mfields ("columns" : String)) r0 := by
  have hcast : ((rest.length : Rat) + 1) ≠ 0 := by positivity
  rw [decodeOne]
  simp only [getProp, getField, h1, h2, truthy_obj, truthy_arr, strictEqZero, indexAt]
  simp [hcast]

/-- A missing resource key, a missing data field or an empty data array
makes the many-row decode return the empty list. -/
theorem decodeRows_missing (body : JSValue) (key : String) (h : missingOrEmpty body key) :
    decodeRows body key = .ok [] := by
  rcases h with hA | ⟨sfields, hB1, hB2⟩ | ⟨sfields, hC1, hC2⟩
  · rw [decodeRows, hA]
    simp [truthy]
  · rw [decodeRows, hB1]
    simp [truthy, getProp, hB2]
  · rw [decodeRows, hC1]
    simp [truthy, getProp, hC2, asArray, mapDecode]

/-- A missing resource key, a missing data field or an empty data array
makes the single-row decode return null. -/
theorem decodeOne_missing (body : JSValue) (key : String) (h : missingOrEmpty body key) :
    decodeOne body key = .ok .null := by
  rcases h with hA | ⟨sfields, hB1, hB2⟩ | ⟨sfields, hC1, hC2⟩
  · rw [decodeOne, hA]
    simp [truthy]
  · rw [decodeOne, hB1]
    simp [truthy, getProp, hB2]
  · rw [decodeOne, hC1]
    simp [truthy, getProp, hC2, strictEqZero]

/-- A resource key or data field bound to a falsy value is treated by
the many-row decode exactly like an absent one. -/
theorem decodeRows_falsy (fields : List (String × JSValue)) (key : String)
    (h : falsyPresent fields key) : decodeRows (JSValue.obj fields) key = .ok [] := by
  rcases h with ⟨v, h1, h2⟩ | ⟨sfields, dv, h1, h2, h3⟩
  · rw [decodeRows]
    simp [getProp, getField, h1, h2]
  · rw [decodeRows]
    simp only [getProp, getField, h1, h2, truthy_obj]
    simp [h3]

/-- A resource key or data field bound to a falsy value is treated by
the single-row decode exactly like an absent one. -/
theorem decodeOne_falsy (fields : List (String × JSValue)) (key : String)
    (h : falsyPresent fields key) : decodeOne (JSValue.obj fields) key = .ok .null := by
  rcases h with ⟨v, h1, h2⟩ | ⟨sfields, dv, h1, h2, h3⟩
  · rw [decodeOne]
    simp [getProp, getField, h1, h2]
  · rw [decodeOne]
    simp only [getProp, getField, h1, h2, truthy_obj]
    simp [h3]

/-- The single-row decode of a well-shaped nonempty table body yields
the padded record of the first row. -/
theorem decodeOne_table (key : String) (cols : List String) (r0 : List JSValue)
    (rest : List (List JSValue)) (hnd : cols.Nodup) :
    decodeOne (mkTableBody key cols (r0 :: rest)) key = .ok (JSValue.obj (zipPad cols r0)) := by
  rw [mkTableBody]
  have h1 : [(key, JSValue.obj
      [(("columns" : String), JSValue.arr (cols.map JSValue.str)),
       (("data" : String), JSValue.arr ((r0 :: rest).map JSValue.arr))])].lookup key =
      some (JSValue.obj
      [(("columns" : String), JSValue.arr (cols.map JSValue.str)),
       (("data" : String), JSValue.arr ((r0 :: rest).map JSValue.arr))]) := by
    simp [List.lookup]
  have h2 : ([(("columns" : String), JSValue.arr (cols.map JSValue.str)),
       (("data" : String), JSValue.arr ((r0 :: rest).map JSValue.arr))] :
        List (String × JSValue)).lookup ("data" : String) =
      some (JSValue.arr (JSValue.arr r0 :: rest.map JSValue.arr)) := by
    have hb : (("data" : String) == ("columns" : String)) = false := by decide
    simp [List.lookup, hb]
  rw [decodeOne_nonempty _ _ key (JSValue.arr r0) (rest.map JSValue.arr) h1 h2]
  have h3 : getField [(("columns" : String), JSValue.arr (cols.map JSValue.str)),
       (("data" : String), JSValue.arr ((r0 :: rest).map JSValue.arr))] ("columns" : String) =
      JSValue.arr (cols.map JSValue.str) := by
    simp [getField, List.lookup]
  rw [h3]
  exact decodeRow_zipPad cols r0 hnd

/-- On a well-shaped quote body, the single-row decode returns null
exactly in the three absence cases. -/
theorem decodeOne_null_iff (body : JSValue) (h : wellShapedMd body = true) :
    (decodeMarketDataBody body = .ok JSValue.null ↔ quoteMissing body = true) := by
  cases body with
  | obj fields =>
      rw [wellShapedMd] at h
      cases hmd : fields.lookup ("marketdata" : String) with
      | none =>
          have hl : decodeMarketDataBody (JSValue.obj fields) = .ok JSValue.null := by
            rw [decodeMarketDataBody]
            exact decodeOne_missing _ _ (Or.inl (by simp [getProp, getField, hmd]))
          have hr : quoteMissing (JSValue.obj fields) = true := by
            simp [quoteMissing, hmd]
          exact iff_of_true hl hr
      | some md =>
          cases md with
          | obj mfields =>
              cases hdd : mfields.lookup ("data" : String) with
              | none =>
                  have hl : decodeMarketDataBody (JSValue.obj fields) = .ok JSValue.null := by
                    rw [decodeMarketDataBody]
                    refine decodeOne_missing _ _ (Or.inr (Or.inl ⟨mfields, ?_, ?_⟩))
                    · simp [getProp, getField, hmd]
                    · simp [getField, hdd]
                  have hr : quoteMissing (JSValue.obj fields) = true := by
                    simp [quoteMissing, hmd, hdd]
                  exact iff_of_true hl hr
              | some d =>
                  cases d with
                  | arr rows =>
                      cases rows with
                      | nil =>
                          have hl : decodeMarketDataBody (JSValue.obj fields) =
                              .ok JSValue.null := by
                            rw [decodeMarketDataBody]
                            refine decodeOne_missing _ _ (Or.inr (Or.inr ⟨mfields, ?_, ?_⟩))
                            · simp [getProp, getField, hmd]
                            · simp [getField, hdd]
                          have hr : quoteMissing (JSValue.obj fields) = true := by
                            simp [quoteMissing, hmd, hdd]
                          exact iff_of_true hl hr
                      | cons r0 rest =>
                          have hl : decodeMarketDataBody (JSValue.obj fields) =
                              decodeRow (getField mfields ("columns" : String)) r0 := by
                            rw [decodeMarketDataBody]
                            exact decodeOne_nonempty fields mfields _ r0 rest hmd hdd
                          have hne : decodeMarketDataBody (JSValue.obj fields) ≠
                              .ok JSValue.null := by
                            rw [hl]
                            exact decodeRow_ne_null _ _
                          have hr : quoteMissing (JSValue.obj fields) = false := by
                            simp [quoteMissing, hmd, hdd]
                          constructor
                          · intro hc
                            exact absurd hc hne
                          · intro hc
                            rw [hr] at hc
                            exact absurd hc (by simp)
                  | undef => simp [hmd, hdd] at h
                  | null => simp [hmd, hdd] at h
                  | bool b => simp [hmd, hdd] at h
                  | num q => simp [hmd, hdd] at h
                  | str s => simp [hmd, hdd] at h
                  | obj o => simp [hmd, hdd] at h
          | undef => simp [hmd] at h
          | null => simp [hmd] at h
          | bool b => simp [hmd] at h
          | num q => simp [hmd] at h
          | str s => simp [hmd] at h
          | arr a => simp [hmd] at h
  | undef => simp [wellShapedMd] at h
  | null => simp [wellShapedMd] at h
  | bool b => simp [wellShapedMd] at h
  | num q => simp [wellShapedMd] at h
  | str s => simp [wellShapedMd] at h
  | arr a => simp [wellShapedMd] at h

/-- The padded record always has exactly one field per column. -/
theorem zipPad_length (cols : List String) (row : List JSValue) :
    (zipPad cols row).length = cols.length := by
  simp [zipPad]
  omega

/-- Within the row, the padded record pairs column i with row value i. -/
theorem zipPad_get_lt (cols : List String) (row : List JSValue)
    (i : Nat) (hi : i < cols.length) (hi2 : i < row.length) :
    (zipPad cols row)[i]? = some (cols[i], row[i]) := by
  rw [zipPad]
  rw [List.getElem?_zip_eq_some]
  constructor
  · exact List.getElem?_eq_getElem hi
  · rw [List.getElem?_append]
    simp [hi2, List.getElem?_eq_getElem hi2]

/-- Beyond the row, the padded record pairs column i with undefined. -/
theorem zipPad_get_ge (cols : List String) (row : List JSValue)
    (i : Nat) (hi : i < cols.length) (hge : row.length ≤ i) :
    (zipPad cols row)[i]? = some (cols[i], JSValue.undef) := by
  rw [zipPad]
  rw [List.getElem?_zip_eq_some]
  constructor
  · exact List.getElem?_eq_getElem hi
  · rw [List.getElem?_append_right hge]
    have hlt : i - row.length < cols.length - row.length := by omega
    rw [List.getElem?_replicate]
    simp [hlt]

/-- On rows of exactly the column count, the padding vanishes. -/
theorem zipPad_eq_zip (cols : List String) (row : List JSValue)
    (hlen : row.length = cols.length) : zipPad cols row = cols.zip row := by
  rw [zipPad, hlen, Nat.sub_self]
  simp

/-- The comma join of the column whitelist is the literal from the
query template at moex-api.ts line 25. -/
theorem securityColumns_literal :
    String.intercalate ("," : String) securityColumnsList =
      ("SECID,BOARDID,SHORTNAME,PREVPRICE,LOTSIZE,FACEVALUE,STATUS,BOARDNAME,DECIMALS,SECNAME,REMARKS,MARKETCODE,INSTRID,SECTORID,MINSTEP,PREVWAPRICE,FACEUNIT,PREVDATE,ISSUESIZE,ISIN,LATNAME,REGNUMBER,PREVLEGALCLOSEPRICE,CURRENCYID,SECTYPE,LISTLEVEL,SETTLEDATE" : String) := rfl

/-- The URL definition above, whose literal is split at a few append
boundaries, equals the source template verbatim: base, the two path
holes, then one literal up to the limit hole. -/
theorem getSecuritiesUrl_eq_template (engine market : String) (limit : Nat) :
    getSecuritiesUrl engine market limit =
      MOEX_API_BASE_URL ++ ("/engines/" : String) ++ engine ++ ("/markets/" : String) ++
        market ++
        ("/securities.json?iss.meta=off&iss.only=securities&securities.columns=SECID,BOARDID,SHORTNAME,PREVPRICE,LOTSIZE,FACEVALUE,STATUS,BOARDNAME,DECIMALS,SECNAME,REMARKS,MARKETCODE,INSTRID,SECTORID,MINSTEP,PREVWAPRICE,FACEUNIT,PREVDATE,ISSUESIZE,ISIN,LATNAME,REGNUMBER,PREVLEGALCLOSEPRICE,CURRENCYID,SECTYPE,LISTLEVEL,SETTLEDATE&start=0&limit=" : String) ++
        toString limit := by
  simp [getSecuritiesUrl, String.append_assoc, securityColumns_literal]

/-- Reading a heap cons cell. -/
theorem heapGet_cons (k : Nat) (cell : HCell) (rest : JSHeap) (b : Nat) :
    heapGet ((k, cell) :: rest) b = if b == k then some cell else heapGet rest b := by
  cases hbk : b == k <;> simp [heapGet, List.lookup, hbk]

/-- Writing through a heap cons cell. -/
theorem heapSet_cons (k : Nat) (cell : HCell) (rest : JSHeap) (a : Nat) (c : HCell) :
    heapSet ((k, cell) :: rest) a c =
      (if k = a then (a, c) else (k, cell)) :: heapSet rest a c := rfl

/-- A heap write at one address leaves every other address unchanged. -/
theorem heapGet_heapSet_ne (h : JSHeap) (a b : Nat) (c : HCell) (hne : ¬ b = a) :
    heapGet (heapSet h a c) b = heapGet h b := by
  induction h with
  | nil => rfl
  | cons p rest ih =>
      obtain ⟨k, cell⟩ := p
      rw [heapSet_cons]
      by_cases hk : k = a
      · have hba : (b == a) = false := by
          simp [hne]
        have hbk : (b == k) = false := by
          rw [hk]
          exact hba
        rw [if_pos hk, heapGet_cons, heapGet_cons, hba, hbk]
        simp [ih]
      · rw [if_neg hk, heapGet_cons, heapGet_cons]
        cases hbk : b == k with
        | true => rfl
        | false => simp [ih]

/-- An allocation at one address leaves every other address unchanged. -/
theorem heapGet_heapAlloc_ne (h : JSHeap) (a b : Nat) (c : HCell) (hne : ¬ b = a) :
    heapGet (heapAlloc h a c) b = heapGet h b := by
  have hb : (b == a) = false := by
    simp [hne]
  rw [heapAlloc, heapGet_cons, hb]
  simp

/-- An address above every bound address is unbound. -/
theorem lookup_none_of_lt (h : JSHeap) (n : Nat)
    (hbig : ∀ p ∈ h, p.1 < n) : heapGet h n = none := by
  induction h with
  | nil => rfl
  | cons p rest ih =>
      obtain ⟨k, cell⟩ := p
      have hk : k < n := hbig (k, cell) (by simp)
      have hb : (n == k) = false := by
        have hnk : ¬ n = k := by omega
        simp [hnk]
      rw [heapGet_cons, hb]
      simp only [Bool.false_eq_true, if_false]
      exact ih (fun q hq => hbig q (List.mem_cons_of_mem _ hq))

/-- Every bound address is below the fresh one. -/
theorem freshAddr_big (h : JSHeap) : ∀ p ∈ h, p.1 < freshAddr h := by
  induction h with
  | nil => intro p hp; exact absurd hp (by simp)
  | cons q rest ih =>
      intro p hp
      rw [freshAddr, List.foldr_cons]
      rcases List.mem_cons.mp hp with he | hm
      · subst he
        exact Nat.lt_of_lt_of_le (Nat.lt_succ_self _) (Nat.le_max_left _ _)
      · exact Nat.lt_of_lt_of_le (ih p hm) (Nat.le_max_right _ _)

/-- The fresh address is unbound. -/
theorem heapGet_freshAddr (h : JSHeap) : heapGet h (freshAddr h) = none :=
  lookup_none_of_lt h (freshAddr h) (freshAddr_big h)

/-- The forEach fill loop writes only at the record address: every other
address reads the same before and after. -/
theorem buildRowH_frame (a : Nat) (row : HVal) :
    ∀ (cs : List HVal) (h : JSHeap) (i : Nat) (h2 : JSHeap),
    buildRowH a row h cs i = .ok h2 →
    ∀ b, ¬ b = a → heapGet h2 b = heapGet h b := by
  intro cs
  induction cs with
  | nil =>
      intro h i h2 hrun b hne
      rw [buildRowH] at hrun
      cases hrun
      rfl
  | cons c cs2 ih =>
      intro h i h2 hrun b hne
      rw [buildRowH] at hrun
      cases hidx : rowIndexH h row i with
      | error e => rw [hidx] at hrun; exact absurd hrun (by simp)
      | ok v =>
          rw [hidx] at hrun
          cases hga : heapGet h a with
          | none => rw [hga] at hrun; exact absurd hrun (by simp)
          | some cell =>
              rw [hga] at hrun
              cases cell with
              | harr xs => exact absurd hrun (by simp)
              | hobj fields =>
                  have hrec := ih _ (i + 1) h2 hrun b hne
                  rw [hrec, heapGet_heapSet_ne h a b _ hne]

/-- The row-mapping loop allocates only fresh record objects: every
address bound before the loop reads the same after it. -/
theorem decodeRowsH_frame (cols : List HVal) :
    ∀ (rows : List HVal) (h : JSHeap) (h2 : JSHeap) (recs : List Nat),
    decodeRowsH cols h rows = .ok (h2, recs) →
    ∀ b, (heapGet h b).isSome = true → heapGet h2 b = heapGet h b := by
  intro rows
  induction rows with
  | nil =>
      intro h h2 recs hrun b _
      rw [decodeRowsH] at hrun
      cases hrun
      rfl
  | cons row rest ih =>
      intro h h2 recs hrun b hsome
      rw [decodeRowsH] at hrun
      have hbne : ¬ b = freshAddr h := by
        intro he
        rw [he, heapGet_freshAddr] at hsome
        simp at hsome
      cases hbr : buildRowH (freshAddr h) row (heapAlloc h (freshAddr h) (HCell.hobj [])) cols 0 with
      | error e =>
          simp only [hbr] at hrun
          exact absurd hrun (by simp)
      | ok hmid =>
          simp only [hbr] at hrun
          cases hdr : decodeRowsH cols hmid rest with
          | error e =>
              simp only [hdr] at hrun
              exact absurd hrun (by simp)
          | ok p =>
              obtain ⟨h3, recs2⟩ := p
              simp only [hdr, Except.ok.injEq, Prod.mk.injEq] at hrun
              obtain ⟨he1, he2⟩ := hrun
              have hstep1 : heapGet (heapAlloc h (freshAddr h) (HCell.hobj [])) b = heapGet h b :=
                heapGet_heapAlloc_ne h (freshAddr h) b _ hbne
              have hstep2 : heapGet hmid b = heapGet h b := by
                rw [buildRowH_frame (freshAddr h) row cols _ 0 hmid hbr b hbne, hstep1]
              have hstep3 : heapGet h3 b = heapGet hmid b := by
                refine ih hmid h3 recs2 hdr b ?_
                rw [hstep2]
                exact hsome
              rw [← he1, hstep3, hstep2]

/-! ### Claim theorems -/

/-- Claim C1: for every columns array of length n and every row of the
same length, the shared decode step produces a Record pairing column i
with row value i for every i, with no other fields, no renaming and no
coercion of values: the record is exactly the zip of the column names
with the row, both as the step itself computes it and as it is reached
through getSecurities, getMarketData and getTradingSessions on a
well-shaped body, and looking any column name up in that record yields
the row value at the same index.  The columns are distinct, the Table
invariant the specification states for the wire shape. -/
theorem C1_decode_pairs (cols : List String) (row : List JSValue)
    (hlen : row.length = cols.length) (hnd : cols.Nodup) :
    decodeRow (JSValue.arr (cols.map JSValue.str)) (JSValue.arr row) =
      .ok (JSValue.obj (cols.zip row))
    ∧ decodeSecuritiesBody (mkTableBody ("securities" : String) cols [row]) =
      .ok [JSValue.obj (cols.zip row)]
    ∧ decodeMarketDataBody (mkTableBody ("marketdata" : String) cols [row]) =
      .ok (JSValue.obj (cols.zip row))
    ∧ decodeSessionsBody (mkTableBody ("sessions" : String) cols [row]) =
      .ok [JSValue.obj (cols.zip row)]
    ∧ ∀ (i : Nat) (hi : i < cols.length) (hi2 : i < row.length),
        (cols.zip row).lookup (cols.get ⟨i, hi⟩) = some (row.get ⟨i, hi2⟩) := by
  have hz : zipPad cols row = cols.zip row := zipPad_eq_zip cols row hlen
  refine ⟨?_, ?_, ?_, ?_, ?_⟩
  · rw [decodeRow_zipPad cols row hnd, hz]
  · rw [decodeSecuritiesBody, decodeRows_table _ cols [row] hnd]
    simp [hz]
  · rw [decodeMarketDataBody, decodeOne_table _ cols row [] hnd, hz]
  · rw [decodeSessionsBody, decodeRows_table _ cols [row] hnd]
    simp [hz]
  · exact lookup_zip_get cols row hnd

/-- Witness for C1 at a concrete two-column table. -/
theorem C1_decode_pairs_witness :
    exRow.length = exCols.length ∧ exCols.Nodup ∧
    (decodeRow (JSValue.arr (exCols.map JSValue.str)) (JSValue.arr exRow) =
      .ok (JSValue.obj (exCols.zip exRow))
    ∧ decodeSecuritiesBody (mkTableBody ("securities" : String) exCols [exRow]) =
      .ok [JSValue.obj (exCols.zip exRow)]
    ∧ decodeMarketDataBody (mkTableBody ("marketdata" : String) exCols [exRow]) =
      .ok (JSValue.obj (exCols.zip exRow))
    ∧ decodeSessionsBody (mkTableBody ("sessions" : String) exCols [exRow]) =
      .ok [JSValue.obj (exCols.zip exRow)]
    ∧ ∀ (i : Nat) (hi : i < exCols.length) (hi2 : i < exRow.length),
        (exCols.zip exRow).lookup (exCols.get ⟨i, hi⟩) = some (exRow.get ⟨i, hi2⟩)) :=
  ⟨rfl, by decide, C1_decode_pairs exCols exRow rfl (by decide)⟩

/-- Counterexample to claim C2 as stated: the parsed JSON body null
lacks every resource key, yet every decode step throws a TypeError on
the property read, and getSecurities turns it into a wrapped error
rather than an empty result. -/
theorem C2_empty_counterexample :
    decodeSecuritiesBody JSValue.null = .error ("TypeError: Cannot read properties of null")
    ∧ decodeSessionsBody JSValue.null = .error ("TypeError: Cannot read properties of null")
    ∧ decodeMarketDataBody JSValue.null = .error ("TypeError: Cannot read properties of null")
    ∧ getSecurities (fun _ => .ok ⟨true, 200, .ok JSValue.null⟩) ("stock" : String)
        ("shares" : String) 100 =
      .error ("Failed to fetch securities: TypeError: Cannot read properties of null") :=
  ⟨rfl, rfl, rfl, rfl⟩

/-- Claim C2 as amended: for every parsed JSON body on which the
property read itself cannot throw, a missing resource key, a missing
data field, or an empty data array makes getSecurities and
getTradingSessions decode to the empty sequence and getMarketData
decode to null, without throwing. -/
theorem C2_empty_amended (body : JSValue) :
    (missingOrEmpty body ("securities" : String) → decodeSecuritiesBody body = .ok [])
    ∧ (missingOrEmpty body ("sessions" : String) → decodeSessionsBody body = .ok [])
    ∧ (missingOrEmpty body ("marketdata" : String) →
        decodeMarketDataBody body = .ok JSValue.null) :=
  ⟨fun h => decodeRows_missing body _ h, fun h => decodeRows_missing body _ h,
   fun h => decodeOne_missing body _ h⟩

/-- Witness for the amended C2 at the empty object body. -/
theorem C2_empty_amended_witness :
    missingOrEmpty (JSValue.obj []) ("securities" : String)
    ∧ missingOrEmpty (JSValue.obj []) ("sessions" : String)
    ∧ missingOrEmpty (JSValue.obj []) ("marketdata" : String)
    ∧ decodeSecuritiesBody (JSValue.obj []) = .ok []
    ∧ decodeSessionsBody (JSValue.obj []) = .ok []
    ∧ decodeMarketDataBody (JSValue.obj []) = .ok JSValue.null :=
  ⟨Or.inl rfl, Or.inl rfl, Or.inl rfl,
   (C2_empty_amended (JSValue.obj [])).1 (Or.inl rfl),
   (C2_empty_amended (JSValue.obj [])).2.1 (Or.inl rfl),
   (C2_empty_amended (JSValue.obj [])).2.2 (Or.inl rfl)⟩

/-- Claim C3: on a body of the documented quote wire shape, the
getMarketData decode returns null exactly when the marketdata key is
absent, its data field is absent, or the data array is empty; in every
other case it decodes only the first data row against the columns field
and returns that single Record, ignoring all later rows (the right side
of the final equation does not mention them). -/
theorem C3_quote_absent (body : JSValue) (h : wellShapedMd body = true) :
    (decodeMarketDataBody body = .ok JSValue.null ↔ quoteMissing body = true)
    ∧ (∀ (fields mfields : List (String × JSValue)) (r0 : JSValue) (rest : List JSValue),
        body = JSValue.obj fields →
        fields.lookup ("marketdata" : String) = some (JSValue.obj mfields) →
        mfields.lookup ("data" : String) = some (JSValue.arr (r0 :: rest)) →
        decodeMarketDataBody body = decodeRow (getField mfields ("columns" : String)) r0) := by
  refine ⟨decodeOne_null_iff body h, ?_⟩
  intro fields mfields r0 rest hb h1 h2
  subst hb
  rw [decodeMarketDataBody]
  exact decodeOne_nonempty fields mfields _ r0 rest h1 h2

/-- Witness for C3 at a concrete one-row quote body. -/
theorem C3_quote_absent_witness :
    wellShapedMd exQuoteBody = true
    ∧ ((decodeMarketDataBody exQuoteBody = .ok JSValue.null ↔ quoteMissing exQuoteBody = true)
    ∧ (∀ (fields mfields : List (String × JSValue)) (r0 : JSValue) (rest : List JSValue),
        exQuoteBody = JSValue.obj fields →
        fields.lookup ("marketdata" : String) = some (JSValue.obj mfields) →
        mfields.lookup ("data" : String) = some (JSValue.arr (r0 :: rest)) →
        decodeMarketDataBody exQuoteBody =
          decodeRow (getField mfields ("columns" : String)) r0)) :=
  ⟨rfl, C3_quote_absent exQuoteBody rfl⟩

/-- Counterexample to claim C4 as stated: on two columns and a one-value
row the decode step does not zip to the shorter length; the record has
two fields, the second bound to undefined, not min(2, 1) fields. -/
theorem C4_short_row_counterexample :
    decodeRow (JSValue.arr [JSValue.str ("A" : String), JSValue.str ("B" : String)])
        (JSValue.arr [JSValue.num 1]) =
      .ok (JSValue.obj [(("A" : String), JSValue.num 1), (("B" : String), JSValue.undef)])
    ∧ ¬ ([(("A" : String), JSValue.num 1), (("B" : String), JSValue.undef)].length =
        Nat.min 2 1) :=
  ⟨rfl, by decide⟩

/-- Claim C4 as amended: under a length mismatch the decode step
iterates over all columns, producing exactly one field per column:
column i is bound to row value i while the row lasts and to undefined
past its end, and extra row values beyond the columns are dropped. -/
theorem C4_zip_all_columns (cols : List String) (row : List JSValue) (hnd : cols.Nodup) :
    decodeRow (JSValue.arr (cols.map JSValue.str)) (JSValue.arr row) =
      .ok (JSValue.obj (zipPad cols row))
    ∧ (zipPad cols row).length = cols.length
    ∧ (∀ (i : Nat) (hi : i < cols.length) (hi2 : i < row.length),
        (zipPad cols row)[i]? = some (cols[i], row[i]))
    ∧ (∀ (i : Nat) (hi : i < cols.length), row.length ≤ i →
        (zipPad cols row)[i]? = some (cols[i], JSValue.undef)) :=
  ⟨decodeRow_zipPad cols row hnd, zipPad_length cols row,
   fun i hi hi2 => zipPad_get_lt cols row i hi hi2,
   fun i hi hge => zipPad_get_ge cols row i hi hge⟩

/-- Witness for the amended C4 at a two-column, one-value row. -/
theorem C4_zip_all_columns_witness :
    exColsAB.Nodup
    ∧ (decodeRow (JSValue.arr (exColsAB.map JSValue.str)) (JSValue.arr exShortRow) =
      .ok (JSValue.obj (zipPad exColsAB exShortRow))
    ∧ (zipPad exColsAB exShortRow).length = exColsAB.length
    ∧ (∀ (i : Nat) (hi : i < exColsAB.length) (hi2 : i < exShortRow.length),
        (zipPad exColsAB exShortRow)[i]? = some (exColsAB[i], exShortRow[i]))
    ∧ (∀ (i : Nat) (hi : i < exColsAB.length), exShortRow.length ≤ i →
        (zipPad exColsAB exShortRow)[i]? = some (exColsAB[i], JSValue.undef))) :=
  ⟨by decide, C4_zip_all_columns exColsAB exShortRow (by decide)⟩

/-- Claim C5: for every data array of rows, getSecurities and
getTradingSessions decode to exactly one Record per input row, in the
same order as the input rows: the result is the map of the per-row
record construction over the row list, whose length equals the number of
rows. -/
theorem C5_one_record_per_row (cols : List String) (rows : List (List JSValue))
    (hnd : cols.Nodup) :
    decodeSecuritiesBody (mkTableBody ("securities" : String) cols rows) =
      .ok (rows.map (fun r => JSValue.obj (zipPad cols r)))
    ∧ decodeSessionsBody (mkTableBody ("sessions" : String) cols rows) =
      .ok (rows.map (fun r => JSValue.obj (zipPad cols r)))
    ∧ (rows.map (fun r => JSValue.obj (zipPad cols r))).length = rows.length :=
  ⟨decodeRows_table _ cols rows hnd, decodeRows_table _ cols rows hnd, by simp⟩

/-- Witness for C5 at a concrete two-row table. -/
theorem C5_one_record_per_row_witness :
    exCols1.Nodup
    ∧ (decodeSecuritiesBody (mkTableBody ("securities" : String) exCols1 exRows2) =
      .ok (exRows2.map (fun r => JSValue.obj (zipPad exCols1 r)))
    ∧ decodeSessionsBody (mkTableBody ("sessions" : String) exCols1 exRows2) =
      .ok (exRows2.map (fun r => JSValue.obj (zipPad exCols1 r)))
    ∧ (exRows2.map (fun r => JSValue.obj (zipPad exCols1 r))).length = exRows2.length) :=
  ⟨by decide, C5_one_record_per_row exCols1 exRows2 (by decide)⟩

/-- Claim C6: for every engine, market and limit, the getSecurities URL
(a pure function of those inputs) contains the engines and markets path
with the securities.json suffix, the limit parameter, start=0, and the
comma join of all 27 whitelisted column names in the documented
order. -/
theorem C6_url_deterministic (engine market : String) (limit : Nat) :
    containsStr (getSecuritiesUrl engine market limit)
      (("/engines/" : String) ++ engine ++ ("/markets/" : String) ++ market ++
        ("/securities.json" : String))
    ∧ containsStr (getSecuritiesUrl engine market limit)
      (("limit=" : String) ++ toString limit)
    ∧ containsStr (getSecuritiesUrl engine market limit) ("start=0" : String)
    ∧ securityColumnsList.length = 27
    ∧ containsStr (getSecuritiesUrl engine market limit)
      (String.intercalate ("," : String) securityColumnsList) := by
  refine ⟨?_, ?_, ?_, rfl, ?_⟩
  · refine ⟨MOEX_API_BASE_URL,
      ("?iss.meta=off&iss.only=securities&securities.columns=" : String) ++
        String.intercalate ("," : String) securityColumnsList ++ ("&" : String) ++
        ("start=0" : String) ++ ("&" : String) ++ ("limit=" : String) ++ toString limit, ?_⟩
    simp only [getSecuritiesUrl, String.append_assoc]
  · refine ⟨MOEX_API_BASE_URL ++ ("/engines/" : String) ++ engine ++ ("/markets/" : String) ++
      market ++ ("/securities.json" : String) ++
      ("?iss.meta=off&iss.only=securities&securities.columns=" : String) ++
      String.intercalate ("," : String) securityColumnsList ++ ("&" : String) ++
      ("start=0" : String) ++ ("&" : String), ("" : String), ?_⟩
    simp only [getSecuritiesUrl, String.append_assoc, String.append_empty]
  · refine ⟨MOEX_API_BASE_URL ++ ("/engines/" : String) ++ engine ++ ("/markets/" : String) ++
      market ++ ("/securities.json" : String) ++
      ("?iss.meta=off&iss.only=securities&securities.columns=" : String) ++
      String.intercalate ("," : String) securityColumnsList ++ ("&" : String),
      ("&" : String) ++ ("limit=" : String) ++ toString limit, ?_⟩
    simp only [getSecuritiesUrl, String.append_assoc]
  · refine ⟨MOEX_API_BASE_URL ++ ("/engines/" : String) ++ engine ++ ("/markets/" : String) ++
      market ++ ("/securities.json" : String) ++
      ("?iss.meta=off&iss.only=securities&securities.columns=" : String),
      ("&" : String) ++ ("start=0" : String) ++ ("&" : String) ++ ("limit=" : String) ++
        toString limit, ?_⟩
    simp only [getSecuritiesUrl, String.append_assoc]

/-- Claim C7: whenever the HTTP response is not ok, each of the three
operations fails with an error whose message includes the numeric
status, and no retry is performed: each operation consults its single
response exactly once and returns the wrapped HTTP error built from
that status. -/
theorem C7_http_status (r : HttpResponse) (engine market secid : String) (limit : Nat)
    (h : r.ok = false) :
    getSecurities (fun _ => .ok r) engine market limit =
      .error (("Failed to fetch securities: HTTP error! status: " : String) ++
        toString r.status)
    ∧ getMarketData (fun _ => .ok r) secid engine market =
      .error (("Failed to fetch market data for " : String) ++ secid ++
        (": HTTP error! status: " : String) ++ toString r.status)
    ∧ getTradingSessions (fun _ => .ok r) engine market =
      .error (("Failed to fetch trading sessions: HTTP error! status: " : String) ++
        toString r.status)
    ∧ containsStr (("Failed to fetch securities: HTTP error! status: " : String) ++
        toString r.status) (toString r.status)
    ∧ containsStr (("Failed to fetch market data for " : String) ++ secid ++
        (": HTTP error! status: " : String) ++ toString r.status) (toString r.status)
    ∧ containsStr (("Failed to fetch trading sessions: HTTP error! status: " : String) ++
        toString r.status) (toString r.status) := by
  refine ⟨?_, ?_, ?_, ?_, ?_, ?_⟩
  · simp [getSecurities, rawSecurities, fetchStep, h]
    rw [← String.append_assoc]
    simp
  · simp [getMarketData, rawMarketData, fetchStep, h, String.append_assoc]
    have hmm : (": " : String) ++ (("HTTP error! status: " : String) ++ toString r.status) =
        (": HTTP error! status: " : String) ++ toString r.status := by
      rw [← String.append_assoc]
      simp
    rw [hmm]
  · simp [getTradingSessions, rawSessions, fetchStep, h]
    rw [← String.append_assoc]
    simp
  · exact ⟨("Failed to fetch securities: HTTP error! status: " : String), ("" : String),
      by simp [String.append_empty]⟩
  · exact ⟨("Failed to fetch market data for " : String) ++ secid ++
      (": HTTP error! status: " : String), ("" : String),
      by simp [String.append_assoc, String.append_empty]⟩
  · exact ⟨("Failed to fetch trading sessions: HTTP error! status: " : String), ("" : String),
      by simp [String.append_empty]⟩

/-- Witness for C7 at a concrete 404 response. -/
theorem C7_http_status_witness :
    exBadResponse.ok = false
    ∧ (getSecurities (fun _ => .ok exBadResponse) ("stock" : String) ("shares" : String) 100 =
      .error (("Failed to fetch securities: HTTP error! status: " : String) ++
        toString exBadResponse.status)) :=
  ⟨rfl, (C7_http_status exBadResponse ("stock" : String) ("shares" : String)
    ("SBER" : String) 100 rfl).1⟩

/-- Claim C8: whatever root cause makes the try block of an operation
fail (transport error, non-ok status, JSON parse error or a decode-time
TypeError), the operation returns exactly one wrapped error whose
message names the operation (and, for getMarketData, the requested
secid) and ends with the root-cause message, and the caller never
receives a successful partial result. -/
theorem C8_wrapped_errors (transport : String → Except String HttpResponse)
    (engine market secid : String) (limit : Nat) (e1 e2 e3 : String)
    (h1 : rawSecurities transport engine market limit = .error e1)
    (h2 : rawMarketData transport secid engine market = .error e2)
    (h3 : rawSessions transport engine market = .error e3) :
    getSecurities transport engine market limit =
      .error (("Failed to fetch securities: " : String) ++ e1)
    ∧ getMarketData transport secid engine market =
      .error (("Failed to fetch market data for " : String) ++ secid ++ (": " : String) ++ e2)
    ∧ getTradingSessions transport engine market =
      .error (("Failed to fetch trading sessions: " : String) ++ e3)
    ∧ (∀ v, ¬ getSecurities transport engine market limit = .ok v)
    ∧ (∀ v, ¬ getMarketData transport secid engine market = .ok v)
    ∧ (∀ v, ¬ getTradingSessions transport engine market = .ok v) := by
  have hs : getSecurities transport engine market limit =
      .error (("Failed to fetch securities: " : String) ++ e1) := by
    rw [getSecurities, h1]
  have hm : getMarketData transport secid engine market =
      .error (("Failed to fetch market data for " : String) ++ secid ++ (": " : String) ++ e2) := by
    rw [getMarketData, h2]
  have ht : getTradingSessions transport engine market =
      .error (("Failed to fetch trading sessions: " : String) ++ e3) := by
    rw [getTradingSessions, h3]
  refine ⟨hs, hm, ht, ?_, ?_, ?_⟩
  · intro v hv
    rw [hs] at hv
    exact absurd hv (by simp)
  · intro v hv
    rw [hm] at hv
    exact absurd hv (by simp)
  · intro v hv
    rw [ht] at hv
    exact absurd hv (by simp)

/-- Witness for C8 at a concrete transport failure. -/
theorem C8_wrapped_errors_witness :
    rawSecurities (fun _ => .error ("connection refused")) ("stock" : String)
      ("shares" : String) 100 = .error ("connection refused")
    ∧ rawMarketData (fun _ => .error ("connection refused")) ("SBER" : String)
      ("stock" : String) ("shares" : String) = .error ("connection refused")
    ∧ rawSessions (fun _ => .error ("connection refused")) ("stock" : String)
      ("shares" : String) = .error ("connection refused")
    ∧ (getSecurities (fun _ => .error ("connection refused")) ("stock" : String)
        ("shares" : String) 100 =
      .error (("Failed to fetch securities: " : String) ++ ("connection refused" : String))
    ∧ getMarketData (fun _ => .error ("connection refused")) ("SBER" : String)
        ("stock" : String) ("shares" : String) =
      .error (("Failed to fetch market data for " : String) ++ ("SBER" : String) ++
        (": " : String) ++ ("connection refused" : String))
    ∧ getTradingSessions (fun _ => .error ("connection refused")) ("stock" : String)
        ("shares" : String) =
      .error (("Failed to fetch trading sessions: " : String) ++ ("connection refused" : String))
    ∧ (∀ v, ¬ getSecurities (fun _ => .error ("connection refused")) ("stock" : String)
        ("shares" : String) 100 = .ok v)
    ∧ (∀ v, ¬ getMarketData (fun _ => .error ("connection refused")) ("SBER" : String)
        ("stock" : String) ("shares" : String) = .ok v)
    ∧ (∀ v, ¬ getTradingSessions (fun _ => .error ("connection refused")) ("stock" : String)
        ("shares" : String) = .ok v)) :=
  ⟨rfl, rfl, rfl,
   C8_wrapped_errors (fun _ => .error ("connection refused")) ("stock" : String)
     ("shares" : String) ("SBER" : String) 100 ("connection refused" : String)
     ("connection refused" : String) ("connection refused" : String) rfl rfl rfl⟩

/-- Claim C9: the decode step never mutates its input: run on an
explicit heap from the addresses of the columns array and the data
array, a successful decode leaves every address bound before the run
reading exactly the cell it held before, in particular the columns
array, the data array and (being bound cells) every row it references;
only fresh record objects are added. -/
theorem C9_decode_frame (h : JSHeap) (colsA rowsA : Nat) (h2 : JSHeap) (recs : List Nat)
    (hrun : decodeStepH h colsA rowsA = .ok (h2, recs)) :
    (∀ b, (heapGet h b).isSome = true → heapGet h2 b = heapGet h b)
    ∧ heapGet h2 colsA = heapGet h colsA
    ∧ heapGet h2 rowsA = heapGet h rowsA := by
  rw [decodeStepH] at hrun
  cases hc : heapGet h colsA with
  | none => rw [hc] at hrun; exact absurd hrun (by simp)
  | some ccell =>
      rw [hc] at hrun
      cases ccell with
      | hobj f => exact absurd hrun (by simp)
      | harr cols =>
          cases hr : heapGet h rowsA with
          | none => rw [hr] at hrun; exact absurd hrun (by simp)
          | some rcell =>
              rw [hr] at hrun
              cases rcell with
              | hobj f => exact absurd hrun (by simp)
              | harr rows =>
                  have hframe := decodeRowsH_frame cols rows h h2 recs hrun
                  refine ⟨hframe, ?_, ?_⟩
                  · have hx := hframe colsA (by rw [hc]; rfl)
                    rw [hc] at hx
                    exact hx
                  · have hx := hframe rowsA (by rw [hr]; rfl)
                    rw [hr] at hx
                    exact hx

/-- Witness for C9 at a concrete three-cell heap: decoding allocates the
record at the fresh address 3 and addresses 0, 1 and 2 are unchanged. -/
theorem C9_decode_frame_witness :
    decodeStepH frameHeap0 0 1 = .ok (frameHeap1, [3])
    ∧ ((∀ b, (heapGet frameHeap0 b).isSome = true →
        heapGet frameHeap1 b = heapGet frameHeap0 b)
      ∧ heapGet frameHeap1 0 = heapGet frameHeap0 0
      ∧ heapGet frameHeap1 1 = heapGet frameHeap0 1) :=
  ⟨rfl, C9_decode_frame frameHeap0 0 1 frameHeap1 [3] rfl⟩

/-- Claim C10: a resource key present but bound to null or any other
falsy value, or a data field present but bound to a falsy value, is
treated exactly like an absent key: getSecurities and
getTradingSessions decode to the empty sequence and getMarketData to
null, because the guards are truthiness checks, not key-membership
checks. -/
theorem C10_falsy_presence (fields : List (String × JSValue)) :
    (falsyPresent fields ("securities" : String) →
      decodeSecuritiesBody (JSValue.obj fields) = .ok [])
    ∧ (falsyPresent fields ("sessions" : String) →
      decodeSessionsBody (JSValue.obj fields) = .ok [])
    ∧ (falsyPresent fields ("marketdata" : String) →
      decodeMarketDataBody (JSValue.obj fields) = .ok JSValue.null) :=
  ⟨fun h => decodeRows_falsy fields _ h, fun h => decodeRows_falsy fields _ h,
   fun h => decodeOne_falsy fields _ h⟩

/-- Witness for C10 at a body binding all three resource keys to
null. -/
theorem C10_falsy_presence_witness :
    falsyPresent exFalsyFields ("securities" : String)
    ∧ falsyPresent exFalsyFields ("sessions" : String)
    ∧ falsyPresent exFalsyFields ("marketdata" : String)
    ∧ decodeSecuritiesBody (JSValue.obj exFalsyFields) = .ok []
    ∧ decodeSessionsBody (JSValue.obj exFalsyFields) = .ok []
    ∧ decodeMarketDataBody (JSValue.obj exFalsyFields) = .ok JSValue.null :=
  ⟨Or.inl ⟨JSValue.null, rfl, rfl⟩, Or.inl ⟨JSValue.null, rfl, rfl⟩,
   Or.inl ⟨JSValue.null, rfl, rfl⟩,
   (C10_falsy_presence exFalsyFields).1 (Or.inl ⟨JSValue.null, rfl, rfl⟩),
   (C10_falsy_presence exFalsyFields).2.1 (Or.inl ⟨JSValue.null, rfl, rfl⟩),
   (C10_falsy_presence exFalsyFields).2.2 (Or.inl ⟨JSValue.null, rfl, rfl⟩)⟩

end MoexIss
